import Mathlib

/-!
Verification of the goodman_focus pipeline (`goodman_focus/goodman_focus.py`).

The numeric core is shallowly embedded over `ℚ`.  External iterative
optimizers (astropy `LevMarLSQFitter`, `SimplexLSQFitter`, scipy `leastsq`)
are not re-implemented: where a claim depends only on control flow around
them they are passed in as function parameters; their documented error
behaviour (scipy `leastsq` rejecting more parameters than data points,
`np.max` rejecting empty input) is modelled explicitly.
-/

namespace GoodmanFocus

/-! ## Peak Detector (`get_peaks`, lines 159-173)

The background-subtracted profile is the input; thresholding and
`scipy.signal.argrelmax(order=5)` (default `mode = clip`) are embedded. -/

/-- Minimum of a profile, `np.min` / `profile.min()` on a nonempty list. -/
def minQ (l : List ℚ) : ℚ := l.foldl min (l.headD 0)

/-- Maximum of a profile, `np.max` / `profile.max()` on a nonempty list. -/
def maxQ (l : List ℚ) : ℚ := l.foldl max (l.headD 0)

/-- Lines 159-163: `np.where(np.abs(profile > profile.min() + 0.03 * profile.max()), profile, None)`
followed by replacing `None` with `0`.  `np.abs` of the boolean mask is the
mask itself, so a sample is kept exactly when it is strictly above
`min + 0.03 * max`, and zeroed otherwise. -/
def thresholdProfile (profile : List ℚ) : List ℚ :=
  let lo := minQ profile
  let hi := maxQ profile
  profile.map (fun x => if lo + 3/100 * hi < x then x else 0)

/-- Index clipping used by `scipy.signal.argrelmax` with `mode = clip` for
indices running past the right end: `min (i + s) (n - 1)`. -/
def clipHi (n i : ℕ) : ℕ := min i (n - 1)

/-- One position of `scipy.signal._boolrelextrema` with comparator `>` and
`order = 5`, `mode = clip`: position `i` survives when `data[i]` is strictly
greater than `data[clip(i + s)]` and `data[clip(i - s)]` for every shift
`s = 1..5` (natural subtraction `i - s` is exactly the clip at the left
edge). -/
def isRelMax (l : List ℚ) (i : ℕ) : Bool :=
  (List.range 5).all (fun t =>
    let s := t + 1
    decide (l.getD (clipHi l.length (i + s)) 0 < l.getD i 0) &&
      decide (l.getD (i - s) 0 < l.getD i 0))

/-- Line 165: `signal.argrelmax(filtered_data, axis=0, order=5)[0]`. -/
def argrelmax5 (l : List ℚ) : List ℕ :=
  (List.range l.length).filter (fun i => isRelMax l i)

/-- Lines 159-173 of `get_peaks`, from the background-subtracted profile on:
threshold, find relative maxima, and read the (unthresholded) profile values
at the peak positions. -/
def get_peaks_from_profile (profile : List ℚ) : List ℕ × List ℚ :=
  let filtered := thresholdProfile profile
  let peaks := argrelmax5 filtered
  (peaks, peaks.map (fun i => profile.getD i 0))

/-! ## Feature Fitter aggregation (`get_fwhm`, lines 219-278)

The per-peak Levenberg-Marquardt fit is an external iterative optimizer; it
enters as the parameter `peakFit`, giving for each peak index the fitted
FWHM (`none` models a NaN FWHM, excluded on line 247).  The aggregation
(single value / 3-sigma clip + mean / `None`) is embedded exactly. -/

/-- Arithmetic mean, `np.mean`. -/
def meanQ (l : List ℚ) : ℚ := l.sum / l.length

/-- Population variance, the square of `np.std` (astropy `stdfunc=np.std`,
`ddof = 0`). -/
def varQ (l : List ℚ) : ℚ :=
  ((l.map (fun x => (x - meanQ l) ^ 2)).sum) / l.length

/-- Ascending sort of the data, as performed inside `np.ma.median`. -/
def sortedQ (l : List ℚ) : List ℚ := l.insertionSort (· ≤ ·)

/-- Median as computed by `np.ma.median` (astropy `cenfunc`): middle element
of the sorted data for odd length, average of the two middle elements for
even length. -/
def medianQ (l : List ℚ) : ℚ :=
  let s := sortedQ l
  if l.length % 2 = 1 then s.getD (l.length / 2) 0
  else (s.getD (l.length / 2 - 1) 0 + s.getD (l.length / 2) 0) / 2

/-- Line 256: `sigma_clip(all_fwhm, sigma=3, iters=1)` followed by dropping
the masked entries.  astropy masks `x` when `x < median - 3*std` or
`x > median + 3*std`; the survivors are exactly those with
`|x - median| ≤ 3*std`, encoded over `ℚ` by the equivalent squared
comparison `(x - median)^2 ≤ 9 * variance` (avoiding the irrational square
root of the variance). -/
def sigmaClip3 (l : List ℚ) : List ℚ :=
  l.filter (fun x => decide ((x - medianQ l) ^ 2 ≤ 9 * varQ l))

/-- Lines 219-278 of `get_fwhm`: collect the non-NaN per-peak FWHM values in
peak order; return a single valid value directly; otherwise 3-sigma clip
(one iteration), return the mean of the survivors when any remain and
`None` when none do. -/
def get_fwhm (peaks : List ℕ) (peakFit : ℕ → Option ℚ) : Option ℚ :=
  let all_fwhm := (List.range peaks.length).filterMap peakFit
  if all_fwhm.length = 1 then some (all_fwhm.headD 0)
  else
    let cleaned := sigmaClip3 all_fwhm
    if 0 < cleaned.length then some (meanQ cleaned) else none

/-! ## Moffat model initialization (`get_fwhm`, lines 234-245)

Parameter record of astropy `Moffat1D`.  Lines 235-236 mutate only
`amplitude` and `x_0` of the current model before each fit; line 243
rebinds `model` to the fitter's output, which the next iteration then
initializes from. -/

structure MoffatParams where
  amplitude : ℚ
  x_0 : ℚ
  gamma : ℚ
  alpha : ℚ
deriving DecidableEq

/-- Defaults of `models.Moffat1D()`: `amplitude=1, x_0=0, gamma=1, alpha=1`. -/
def moffatDefault : MoffatParams := ⟨1, 0, 1, 1⟩

/-- Lines 235-236: the initialization applied before fitting one peak --
only `amplitude` and `x_0` of the incoming model are overwritten. -/
def moffatInitForPeak (prev : MoffatParams) (peak : ℕ) (value : ℚ) :
    MoffatParams :=
  { prev with amplitude := value, x_0 := (peak : ℚ) }

/-- The sequence of initial parameter sets handed to the fitter by the loop
of `get_fwhm` over `(position, value)` peaks, for an abstract fitter
`fit`: entry `k` is the model state right before the `k`-th call of the
fitter (line 243 rebinds `model` to the fitted result). -/
def moffatInits (fit : MoffatParams → MoffatParams) :
    List (ℕ × ℚ) → MoffatParams → List MoffatParams
  | [], _ => []
  | (p, v) :: rest, prev =>
    let init := moffatInitForPeak prev p v
    init :: moffatInits fit rest (fit init)

/-! ## Profile Extractor, raw profile (`get_peaks`, lines 133-138)

`raw_profile = np.median(ccd.data[int(width/2 - 50):int(width/2 + 50), :], axis=0)`.
Python `int()` truncates toward zero and Python slices wrap negative
indices and clamp at the ends; both are embedded exactly. -/

/-- Python `int()` on a rational: truncation toward zero. -/
def pyTrunc (q : ℚ) : ℤ := if q < 0 then -(Int.floor (-q)) else Int.floor q

/-- Python slice semantics `xs[start:stop]` on a list of length `n`,
returning the selected indices: negative bounds count from the end, then
both bounds are clamped to `[0, n]`. -/
def pySliceIdx (n : ℕ) (start stop : ℤ) : List ℕ :=
  let s : ℤ := if start < 0 then max 0 ((n : ℤ) + start) else min start (n : ℤ)
  let e : ℤ := if stop < 0 then max 0 ((n : ℤ) + stop) else min stop (n : ℤ)
  (List.range (e - s).toNat).map (fun t => s.toNat + t)

/-- Lines 133-138: the band of row indices actually selected,
`data[int(width/2 - 50):int(width/2 + 50), :]`. -/
def bandRows (width : ℕ) : List ℕ :=
  pySliceIdx width (pyTrunc ((width : ℚ) / 2 - 50)) (pyTrunc ((width : ℚ) / 2 + 50))

/-- Lines 133-138: per-column median over the selected band of rows
(`np.median(..., axis=0)`).  The image is a list of rows. -/
def rawProfile (data : List (List ℚ)) : List ℚ :=
  let width := data.length
  let band := (bandRows width).map (fun r => data.getD r [])
  let ncols := (data.headD []).length
  (List.range ncols).map (fun j => medianQ (band.map (fun row => row.getD j 0)))

/-- Modelled from the spec (claim C9 wording): per-column median of the
100 rows starting at `int(R/2) - 50` (the band "centered on the image's
vertical midpoint, spanning 100 rows").  A row index falling outside the
image -- possible only when the claimed band does not fit, i.e. the claim's
presupposition fails -- is read as zeros to keep the definition total. -/
def specCenteredProfile (data : List (List ℚ)) : List ℚ :=
  let width := data.length
  let base : ℤ := pyTrunc ((width : ℚ) / 2) - 50
  let rows : List ℤ := (List.range 100).map (fun (t : ℕ) => base + (t : ℤ))
  let ncols := (data.headD []).length
  (List.range ncols).map (fun j =>
    medianQ (rows.map (fun r =>
      if 0 ≤ r ∧ r < (width : ℤ) then (data.getD r.toNat []).getD j 0 else 0)))

/-! ## Focus Curve Solver (`GetFocus._fit` / `_get_local_minimum`,
lines 369-389) and orchestration (`find_best_focus`, lines 391-428)

The degree-5 least-squares fit itself (`LevMarLSQFitter` on
`Polynomial1D(degree=5)`) enters as the parameter `polyFit`; the grid,
derivative and argmin logic is embedded exactly. -/

/-- Evaluation of astropy `Polynomial1D`: `c0 + c1*x + ... + cn*x^n`, the
coefficient list in increasing degree. -/
def polyEval (coeffs : List ℚ) (x : ℚ) : ℚ :=
  coeffs.foldr (fun c acc => c + x * acc) 0

/-- `np.linspace(x1, x2, num)`: `num` evenly spaced points,
`x1 + i*(x2 - x1)/(num - 1)`. -/
def linspace (x1 x2 : ℚ) (num : ℕ) : List ℚ :=
  (List.range num).map (fun (i : ℕ) => x1 + (x2 - x1) * (i : ℚ) / ((num : ℚ) - 1))

/-- Lines 381-385: sample the polynomial on `np.linspace(x1, x2, 2000)` and
build `derivative[i] = modeled_data[i+1] - modeled_data[i]/(x_axis[i+1]-x_axis[i])`
for `i` in `range(len(modeled_data) - 1)` -- the literal precedence of the
source: only the second term is divided by the step. -/
def derivList (coeffs : List ℚ) (x1 x2 : ℚ) : List ℚ :=
  let xAxis := linspace x1 x2 2000
  let modeled := xAxis.map (polyEval coeffs)
  (List.range (modeled.length - 1)).map (fun i =>
    modeled.getD (i + 1) 0 -
      modeled.getD i 0 / (xAxis.getD (i + 1) 0 - xAxis.getD i 0))

/-- `np.argmin` over absolute values: index of the first element of least
absolute value (`np.argmin(np.abs(...))` on line 387). -/
def argminAbs : List ℚ → ℕ
  | [] => 0
  | [_] => 0
  | x :: y :: xs =>
    if |(y :: xs).getD (argminAbs (y :: xs)) 0| < |x| then
      argminAbs (y :: xs) + 1
    else 0

/-- Lines 380-389, `_get_local_minimum`: the grid point whose derivative has
least absolute value. -/
def getLocalMinimum (coeffs : List ℚ) (x1 x2 : ℚ) : ℚ :=
  (linspace x1 x2 2000).getD (argminAbs (derivList coeffs x1 x2)) 0

/-- Lines 373-376 of `_fit`: bracket the grid by `np.min`/`np.max` of the
focus values and locate the minimum of the fitted polynomial. -/
def solveBestFocus (coeffs : List ℚ) (focus : List ℚ) : ℚ :=
  getLocalMinimum coeffs (minQ focus) (maxQ focus)

/-- Per-image result available to `find_best_focus`: the aggregated FWHM
(`None` modelled as `none`) and the `CAM_FOC` header value. -/
structure ImageRec where
  fwhm : Option ℚ
  focus : ℚ
deriving DecidableEq

/-- Python truthiness of the per-image FWHM on line 413 (`if self.fwhm:`):
`None` and `0.0` are falsy, every other float truthy. -/
def pyTruthy : Option ℚ → Bool
  | none => false
  | some v => decide (v ≠ 0)

/-- Lines 409-419: the images contributing a `(fwhm, focus)` row to
`focus_data`. -/
def focusData (group : List ImageRec) : List ImageRec :=
  group.filter (fun r => pyTruthy r.fwhm)

/-- Lines 391-428, `find_best_focus` / `_fit`, for one focus group, with the
degree-5 least-squares fit abstracted as `polyFit`.  The two uncaught
exceptions of the source are modelled as `Except.error`:
`np.max` on line 373 raises `ValueError` on an empty sequence, and the
`LevMarLSQFitter` call on line 375 reaches scipy `leastsq`, which raises
`TypeError` whenever the 6 parameters of `Polynomial1D(degree=5)` exceed
the number of data points. -/
def find_best_focus (polyFit : List ℚ → List ℚ → List ℚ)
    (group : List ImageRec) : Except String ℚ :=
  let rows := (focusData group).insertionSort (fun a b => a.focus ≤ b.focus)
  let focus := rows.map (fun r => r.focus)
  let fwhm := rows.map (fun r => (r.fwhm).getD 0)
  if focus.length = 0 then
    Except.error "ValueError: zero-size array to reduction operation maximum"
  else if focus.length < 6 then
    Except.error "TypeError: Improper input: N=6 must not exceed M"
  else
    Except.ok (solveBestFocus (polyFit focus fwhm) focus)

/-! ## Helper lemmas -/

/-- Python truthiness of an optional FWHM, unfolded. -/
lemma pyTruthy_iff (o : Option ℚ) :
    pyTruthy o = true ↔ ∃ v, o = some v ∧ v ≠ 0 := by
  cases o <;> simp [pyTruthy]

/-- C10: in `find_best_focus`, an image contributes a `(focus, fwhm)` sample
to the focus-curve data exactly when its per-image FWHM is truthy
(`if self.fwhm:` on line 413); in particular an image whose FWHM is exactly
`0.0` is excluded just like one whose FWHM is `None`. -/
theorem c10_truthy_filter (group : List ImageRec) (r : ImageRec) :
    (r ∈ focusData group ↔ r ∈ group ∧ ∃ v, r.fwhm = some v ∧ v ≠ 0) ∧
    ∀ f : ℚ, focusData [⟨some 0, f⟩] = focusData [⟨none, f⟩] := by
  constructor
  · rw [focusData, List.mem_filter, pyTruthy_iff]
  · intro f
    simp [focusData, pyTruthy]

/-- C6 (counterexample): on the background-subtracted profile `[0, 100, 3]`
the threshold is `min + 0.03 * max = 3`; the sample `3` is not below the
threshold, yet the code zeroes it (it keeps only samples strictly above the
threshold), so the claim that every sample not below the threshold is kept
unchanged fails. -/
theorem c6_counterexample :
    ¬ ((3 : ℚ) < minQ [0, 100, 3] + 3/100 * maxQ [0, 100, 3]) ∧
    (thresholdProfile [0, 100, 3]).getD 2 0 = 0 ∧
    (thresholdProfile [0, 100, 3]).getD 2 0 ≠ 3 := by
  have hth : thresholdProfile [0, 100, 3] = [0, 100, 0] := by
    norm_num [thresholdProfile, minQ, maxQ]
  refine ⟨by norm_num [minQ, maxQ], by rw [hth]; rfl, by rw [hth]; norm_num⟩

/-- C6 (amended): for every background-subtracted profile and index `i`, the
thresholded profile equals `0` at `i` when `profile[i]` is less than or
equal to `min(profile) + 0.03 * max(profile)`, and equals `profile[i]` when
it is strictly above that threshold. -/
theorem c6_threshold (profile : List ℚ) (i : ℕ) (hi : i < profile.length) :
    (profile.getD i 0 ≤ minQ profile + 3/100 * maxQ profile →
      (thresholdProfile profile).getD i 0 = 0) ∧
    (minQ profile + 3/100 * maxQ profile < profile.getD i 0 →
      (thresholdProfile profile).getD i 0 = profile.getD i 0) := by
  have hmap : (thresholdProfile profile).getD i 0 =
      (fun x => if minQ profile + 3/100 * maxQ profile < x then x else 0)
        (profile.getD i 0) := by
    rw [thresholdProfile]
    rw [List.getD_eq_getElem _ _ (by simpa using hi),
        List.getD_eq_getElem _ _ hi, List.getElem_map]
  constructor
  · intro hle
    rw [hmap]
    simp only [if_neg (not_lt.mpr hle)]
  · intro hlt
    rw [hmap]
    simp only [if_pos hlt]

/-- C6 (witness): the amended theorem applied to the concrete profile
`[0, 100, 3]` at index `2`. -/
theorem c6_witness :
    (2 < ([0, 100, 3] : List ℚ).length) ∧
    ((([0, 100, 3] : List ℚ).getD 2 0 ≤
        minQ [0, 100, 3] + 3/100 * maxQ [0, 100, 3] →
      (thresholdProfile [0, 100, 3]).getD 2 0 = 0) ∧
    (minQ [0, 100, 3] + 3/100 * maxQ [0, 100, 3] <
        ([0, 100, 3] : List ℚ).getD 2 0 →
      (thresholdProfile [0, 100, 3]).getD 2 0 =
        ([0, 100, 3] : List ℚ).getD 2 0)) :=
  ⟨by decide, c6_threshold [0, 100, 3] 2 (by decide)⟩

/-- C2 (counterexample): a group of two images whose FWHM are both `None`
makes `find_best_focus` raise (modelled as `Except.error`): `_fit` reaches
`np.max` of an empty focus list, an uncaught `ValueError`.  The claim that
the group yields no best-focus result without a crash is therefore false. -/
theorem c2_counterexample :
    find_best_focus (fun _ _ => []) [⟨none, 1⟩, ⟨none, 2⟩] =
      Except.error "ValueError: zero-size array to reduction operation maximum" := by
  rfl

/-- C2 (amended): for every focus group in which every image's FWHM is
`None`, `find_best_focus` raises an uncaught `ValueError` (from `np.max` on
the empty focus list in `_fit`) instead of yielding a best-focus result. -/
theorem c2_all_none (polyFit : List ℚ → List ℚ → List ℚ)
    (group : List ImageRec) (h : ∀ r ∈ group, r.fwhm = none) :
    find_best_focus polyFit group =
      Except.error "ValueError: zero-size array to reduction operation maximum" := by
  have hfd : focusData group = [] := by
    rw [focusData, List.filter_eq_nil_iff]
    intro r hr
    rw [h r hr]
    simp [pyTruthy]
  rw [find_best_focus, hfd]
  rfl

/-- C2 (witness): the amended theorem applied to a concrete all-`None`
group. -/
theorem c2_witness :
    (∀ r ∈ ([⟨none, 1⟩] : List ImageRec), r.fwhm = none) ∧
    find_best_focus (fun _ _ => []) [⟨none, 1⟩] =
      Except.error "ValueError: zero-size array to reduction operation maximum" :=
  ⟨by decide, c2_all_none (fun _ _ => []) [⟨none, 1⟩] (by decide)⟩

/-- C3 (counterexample): a group with three defined FWHM samples (fewer
than the 6 parameters of the degree-5 polynomial) does not return an
undefined BestFocus: the `LevMarLSQFitter` call reaches scipy `leastsq`,
which raises an uncaught `TypeError` because N=6 parameters exceed M=3
data points. -/
theorem c3_counterexample :
    find_best_focus (fun _ _ => []) [⟨some 3, 1⟩, ⟨some 3, 2⟩, ⟨some 3, 3⟩] =
      Except.error "TypeError: Improper input: N=6 must not exceed M" := by
  rfl

/-- C3 (amended): for every focus group whose number of truthy-FWHM samples
is below 6, `find_best_focus` raises an uncaught exception (`ValueError`
from `np.max` for zero samples, `TypeError` from scipy `leastsq` for 1-5
samples) rather than returning any best-focus value, defined or not. -/
theorem c3_few_samples (polyFit : List ℚ → List ℚ → List ℚ)
    (group : List ImageRec) (h : (focusData group).length < 6) :
    ∃ s, find_best_focus polyFit group = Except.error s := by
  rw [find_best_focus]
  have hlen :
      (((focusData group).insertionSort
          (fun a b => a.focus ≤ b.focus)).map (fun r => r.focus)).length
        = (focusData group).length := by
    rw [List.length_map, List.length_insertionSort]
  by_cases h0 :
      (((focusData group).insertionSort
          (fun a b => a.focus ≤ b.focus)).map (fun r => r.focus)).length = 0
  · exact ⟨_, by rw [if_pos h0]⟩
  · exact ⟨_, by
      rw [if_neg h0, if_pos (by omega : (((focusData group).insertionSort
        (fun a b => a.focus ≤ b.focus)).map (fun r => r.focus)).length < 6)]⟩

/-- C3 (witness): the amended theorem applied to a concrete three-sample
group. -/
theorem c3_witness :
    ((focusData [⟨some 3, 1⟩, ⟨some 4, 2⟩, ⟨some 5, 3⟩]).length < 6) ∧
    ∃ s, find_best_focus (fun _ _ => [])
        [⟨some 3, 1⟩, ⟨some 4, 2⟩, ⟨some 5, 3⟩] = Except.error s :=
  ⟨by decide, c3_few_samples (fun _ _ => [])
    [⟨some 3, 1⟩, ⟨some 4, 2⟩, ⟨some 5, 3⟩] (by decide)⟩

/-- Length of the initialization sequence: one entry per peak. -/
lemma moffatInits_length (fit : MoffatParams → MoffatParams) :
    ∀ (ps : List (ℕ × ℚ)) (prev : MoffatParams),
      (moffatInits fit ps prev).length = ps.length
  | [], _ => rfl
  | (p, v) :: rest, prev => by
    simp [moffatInits, moffatInits_length fit rest]

/-- Amplitude and center of the `k`-th initialization come from the `k`-th
peak, whatever the starting model. -/
lemma moffatInits_getD_amp (fit : MoffatParams → MoffatParams) :
    ∀ (ps : List (ℕ × ℚ)) (prev : MoffatParams) (k : ℕ), k < ps.length →
      ((moffatInits fit ps prev).getD k moffatDefault).amplitude
          = (ps.getD k (0, 0)).2 ∧
      ((moffatInits fit ps prev).getD k moffatDefault).x_0
          = ((ps.getD k (0, 0)).1 : ℚ)
  | [], _, k, hk => absurd hk (by simp)
  | (p, v) :: rest, prev, 0, _ => by
    simp [moffatInits, moffatInitForPeak]
  | (p, v) :: rest, prev, k + 1, hk => by
    have ih := moffatInits_getD_amp fit rest
      (fit (moffatInitForPeak prev p v)) k (by simpa using hk)
    simpa [moffatInits] using ih

/-- Shape parameters of the first initialization are those of the starting
model. -/
lemma moffatInits_getD_zero_shape (fit : MoffatParams → MoffatParams)
    (p : ℕ) (v : ℚ) (rest : List (ℕ × ℚ)) (prev : MoffatParams) :
    ((moffatInits fit ((p, v) :: rest) prev).getD 0 moffatDefault).gamma
        = prev.gamma ∧
    ((moffatInits fit ((p, v) :: rest) prev).getD 0 moffatDefault).alpha
        = prev.alpha := by
  simp [moffatInits, moffatInitForPeak]

/-- Shape parameters of the `j+1`-st initialization are those of the fitted
model produced from the `j`-th initialization. -/
lemma moffatInits_shape_chain (fit : MoffatParams → MoffatParams) :
    ∀ (ps : List (ℕ × ℚ)) (prev : MoffatParams) (j : ℕ), j + 1 < ps.length →
      ((moffatInits fit ps prev).getD (j + 1) moffatDefault).gamma
          = (fit ((moffatInits fit ps prev).getD j moffatDefault)).gamma ∧
      ((moffatInits fit ps prev).getD (j + 1) moffatDefault).alpha
          = (fit ((moffatInits fit ps prev).getD j moffatDefault)).alpha
  | [], _, j, hj => absurd hj (by simp)
  | (p, v) :: rest, prev, 0, hj => by
    match rest, hj with
    | (q, w) :: r2, _ =>
      simp [moffatInits, moffatInitForPeak]
  | (p, v) :: rest, prev, j + 1, hj => by
    have ih := moffatInits_shape_chain fit rest
      (fit (moffatInitForPeak prev p v)) j (by simpa using hj)
    simpa [moffatInits] using ih

/-- C8 (counterexample): with a fitter that returns `gamma = 2` for the
first peak of `[(10, 5), (20, 7)]`, the second peak's fit is initialized
with `gamma = 2`, not the `Moffat1D` default `gamma = 1`: line 243 rebinds
`model` to the previous fitted model, so shape parameters are only at their
defaults for the first peak. -/
theorem c8_counterexample :
    ((moffatInits (fun q => { q with gamma := 2 }) [(10, 5), (20, 7)]
        moffatDefault).getD 1 moffatDefault).gamma ≠ moffatDefault.gamma := by
  simp [moffatInits, moffatInitForPeak, moffatDefault]

/-- C8 (amended): for every peak processed with the Moffat variant, the fit
is initialized with `amplitude` = the peak's value and `x_0` = the peak's
position (only these two parameters are modified); the shape parameters
`gamma`, `alpha` equal the `Moffat1D` defaults for the first peak, and for
every later peak they equal the shape parameters of the model fitted on the
previous peak. -/
theorem c8_moffat_init (fit : MoffatParams → MoffatParams)
    (peaks : List (ℕ × ℚ)) (k : ℕ) (hk : k < peaks.length) :
    ((moffatInits fit peaks moffatDefault).getD k moffatDefault).amplitude
        = (peaks.getD k (0, 0)).2 ∧
    ((moffatInits fit peaks moffatDefault).getD k moffatDefault).x_0
        = ((peaks.getD k (0, 0)).1 : ℚ) ∧
    (k = 0 →
      ((moffatInits fit peaks moffatDefault).getD k moffatDefault).gamma
          = moffatDefault.gamma ∧
      ((moffatInits fit peaks moffatDefault).getD k moffatDefault).alpha
          = moffatDefault.alpha) ∧
    (∀ j, k = j + 1 →
      ((moffatInits fit peaks moffatDefault).getD k moffatDefault).gamma
          = (fit ((moffatInits fit peaks moffatDefault).getD j
              moffatDefault)).gamma ∧
      ((moffatInits fit peaks moffatDefault).getD k moffatDefault).alpha
          = (fit ((moffatInits fit peaks moffatDefault).getD j
              moffatDefault)).alpha) := by
  obtain ⟨hamp, hx0⟩ := moffatInits_getD_amp fit peaks moffatDefault k hk
  refine ⟨hamp, hx0, ?_, ?_⟩
  · rintro rfl
    match peaks, hk with
    | (p, v) :: rest, _ =>
      exact moffatInits_getD_zero_shape fit p v rest moffatDefault
  · rintro j rfl
    exact moffatInits_shape_chain fit peaks moffatDefault j hk

/-- C8 (witness): the amended theorem applied to the identity fitter and
the two-peak list `[(10, 5), (20, 7)]` at the second peak. -/
theorem c8_witness :
    (1 < ([(10, 5), (20, 7)] : List (ℕ × ℚ)).length) ∧
    (((moffatInits id [(10, 5), (20, 7)] moffatDefault).getD 1
        moffatDefault).amplitude
        = (([(10, 5), (20, 7)] : List (ℕ × ℚ)).getD 1 (0, 0)).2 ∧
    ((moffatInits id [(10, 5), (20, 7)] moffatDefault).getD 1
        moffatDefault).x_0
        = ((([(10, 5), (20, 7)] : List (ℕ × ℚ)).getD 1 (0, 0)).1 : ℚ) ∧
    (1 = 0 →
      ((moffatInits id [(10, 5), (20, 7)] moffatDefault).getD 1
          moffatDefault).gamma = moffatDefault.gamma ∧
      ((moffatInits id [(10, 5), (20, 7)] moffatDefault).getD 1
          moffatDefault).alpha = moffatDefault.alpha) ∧
    (∀ j, 1 = j + 1 →
      ((moffatInits id [(10, 5), (20, 7)] moffatDefault).getD 1
          moffatDefault).gamma
          = (id ((moffatInits id [(10, 5), (20, 7)] moffatDefault).getD j
              moffatDefault)).gamma ∧
      ((moffatInits id [(10, 5), (20, 7)] moffatDefault).getD 1
          moffatDefault).alpha
          = (id ((moffatInits id [(10, 5), (20, 7)] moffatDefault).getD j
              moffatDefault)).alpha)) :=
  ⟨by decide, c8_moffat_init id [(10, 5), (20, 7)] 1 (by decide)⟩

/-- C5: whenever the Peak Detector finds zero peaks in a profile, the
returned peak-value sequence is also empty, and `get_fwhm` on the empty
peak list returns `None` whatever the per-peak fitter does; no exception is
raised anywhere on this path. -/
theorem c5_zero_peaks (profile : List ℚ)
    (h : (get_peaks_from_profile profile).1 = []) :
    (get_peaks_from_profile profile).2 = [] ∧
    ∀ peakFit : ℕ → Option ℚ,
      get_fwhm (get_peaks_from_profile profile).1 peakFit = none := by
  have h2 : (get_peaks_from_profile profile).2
      = ((get_peaks_from_profile profile).1).map (fun i => profile.getD i 0) :=
    rfl
  constructor
  · rw [h2, h]
    rfl
  · intro peakFit
    rw [h]
    rfl

/-- C5 (witness): the flat profile `[1, 1, 1, 1]` is entirely zeroed by the
threshold, so the Peak Detector finds no peaks in it. -/
theorem c5_witness :
    ((get_peaks_from_profile [1, 1, 1, 1]).1 = []) ∧
    ((get_peaks_from_profile [1, 1, 1, 1]).2 = [] ∧
    ∀ peakFit : ℕ → Option ℚ,
      get_fwhm (get_peaks_from_profile [1, 1, 1, 1]).1 peakFit = none) := by
  have hth : thresholdProfile [1, 1, 1, 1] = [0, 0, 0, 0] := by
    norm_num [thresholdProfile, minQ, maxQ]
  have hpk : (get_peaks_from_profile [1, 1, 1, 1]).1 = [] := by
    have : (get_peaks_from_profile [1, 1, 1, 1]).1
        = argrelmax5 (thresholdProfile [1, 1, 1, 1]) := rfl
    rw [this, hth]
    decide
  exact ⟨hpk, c5_zero_peaks [1, 1, 1, 1] hpk⟩

/-- The first-least-absolute-value index is in range for a nonempty list. -/
lemma argminAbs_lt_length : ∀ (l : List ℚ), l ≠ [] → argminAbs l < l.length
  | [_], _ => by simp [argminAbs]
  | x :: y :: xs, _ => by
    have ih := argminAbs_lt_length (y :: xs) (by simp)
    rw [argminAbs]
    split
    · simpa using ih
    · simp

/-- The element at the `argminAbs` index has least absolute value. -/
lemma argminAbs_le : ∀ (l : List ℚ) (j : ℕ), j < l.length →
    |l.getD (argminAbs l) 0| ≤ |l.getD j 0|
  | [], j, hj => absurd hj (by simp)
  | [x], j, hj => by
    have hj0 : j = 0 := by simpa using hj
    subst hj0
    simp [argminAbs]
  | x :: y :: xs, j, hj => by
    rw [argminAbs]
    by_cases hc : |(y :: xs).getD (argminAbs (y :: xs)) 0| < |x|
    · rw [if_pos hc]
      cases j with
      | zero => simpa using le_of_lt hc
      | succ j' =>
        have ih := argminAbs_le (y :: xs) j' (by simpa using hj)
        simpa using ih
    · rw [if_neg hc]
      push_neg at hc
      cases j with
      | zero => simp
      | succ j' =>
        have ih := argminAbs_le (y :: xs) j' (by simpa using hj)
        calc |(x :: y :: xs).getD 0 0| = |x| := by simp
          _ ≤ |(y :: xs).getD (argminAbs (y :: xs)) 0| := hc
          _ ≤ |(y :: xs).getD j' 0| := ih
          _ = |(x :: y :: xs).getD (j' + 1) 0| := by simp

/-- Number of grid points produced by `np.linspace`. -/
lemma linspace_length (x1 x2 : ℚ) (num : ℕ) :
    (linspace x1 x2 num).length = num := by
  rw [linspace, List.length_map, List.length_range]

/-- The `i`-th `np.linspace` grid point, in closed form. -/
lemma linspace_getD (x1 x2 : ℚ) (num i : ℕ) (hi : i < num) :
    (linspace x1 x2 num).getD i 0
      = x1 + (x2 - x1) * i / ((num : ℚ) - 1) := by
  rw [linspace, List.getD_eq_getElem _ _
    (by rw [List.length_map, List.length_range]; exact hi)]
  rw [List.getElem_map, List.getElem_range]

/-- The sampled curve, at an in-range index. -/
lemma sampled_getD (coeffs : List ℚ) (x1 x2 : ℚ) (j : ℕ) (hj : j < 2000) :
    ((linspace x1 x2 2000).map (polyEval coeffs)).getD j 0
      = polyEval coeffs ((linspace x1 x2 2000).getD j 0) := by
  rw [List.getD_eq_getElem _ _ (by simpa [linspace_length] using hj),
    List.getElem_map,
    List.getD_eq_getElem _ _ (by simpa [linspace_length] using hj)]

/-- Length of the derivative sequence: 1999 entries for 2000 samples. -/
lemma derivList_length (coeffs : List ℚ) (x1 x2 : ℚ) :
    (derivList coeffs x1 x2).length = 1999 := by
  simp [derivList, linspace_length]

/-- One entry of the derivative sequence, in closed form. -/
lemma derivList_getD (coeffs : List ℚ) (x1 x2 : ℚ) (i : ℕ)
    (hi : i < 1999) :
    (derivList coeffs x1 x2).getD i 0
      = polyEval coeffs ((linspace x1 x2 2000).getD (i + 1) 0)
        - polyEval coeffs ((linspace x1 x2 2000).getD i 0)
          / ((linspace x1 x2 2000).getD (i + 1) 0
              - (linspace x1 x2 2000).getD i 0) := by
  rw [derivList]
  simp only [List.length_map, linspace_length]
  rw [List.getD_eq_getElem _ _ (by simpa using hi), List.getElem_map,
    List.getElem_range]
  rw [sampled_getD coeffs x1 x2 (i + 1) (by omega),
    sampled_getD coeffs x1 x2 i (by omega)]

/-- C1: for every focus group, the Focus Curve Solver samples the fitted
polynomial on the 2000-point uniform grid `np.linspace(min(focus),
max(focus), 2000)`; the derivative sequence has 1999 entries computed as
`derivative[i] = sampled[i+1] - sampled[i] / (grid[i+1] - grid[i])` -- the
literal precedence of line 385, dividing only the second term by the step
-- and the returned best focus is the grid position whose derivative has
the smallest absolute value (`np.argmin(np.abs(derivative))`, first index
on ties).  The hypothesis `min ≠ max` keeps the embedding inside the domain
where the Python float division is exact. -/
theorem c1_focus_curve_solver (coeffs focus : List ℚ)
    (h : minQ focus ≠ maxQ focus) :
    (linspace (minQ focus) (maxQ focus) 2000).length = 2000 ∧
    (∀ i, i < 2000 → (linspace (minQ focus) (maxQ focus) 2000).getD i 0
        = minQ focus + (maxQ focus - minQ focus) * i / 1999) ∧
    (derivList coeffs (minQ focus) (maxQ focus)).length = 1999 ∧
    (∀ i, i < 1999 →
      (derivList coeffs (minQ focus) (maxQ focus)).getD i 0
        = polyEval coeffs
            ((linspace (minQ focus) (maxQ focus) 2000).getD (i + 1) 0)
          - polyEval coeffs
              ((linspace (minQ focus) (maxQ focus) 2000).getD i 0)
            / ((linspace (minQ focus) (maxQ focus) 2000).getD (i + 1) 0
                - (linspace (minQ focus) (maxQ focus) 2000).getD i 0)) ∧
    (∃ k, k < 1999 ∧ solveBestFocus coeffs focus
        = (linspace (minQ focus) (maxQ focus) 2000).getD k 0 ∧
      ∀ j, j < 1999 →
        |(derivList coeffs (minQ focus) (maxQ focus)).getD k 0|
          ≤ |(derivList coeffs (minQ focus) (maxQ focus)).getD j 0|) := by
  refine ⟨linspace_length _ _ _, ?_, derivList_length _ _ _, ?_, ?_⟩
  · intro i hi
    rw [linspace_getD _ _ _ _ hi]
    norm_num
  · intro i hi
    exact derivList_getD _ _ _ _ hi
  · refine ⟨argminAbs (derivList coeffs (minQ focus) (maxQ focus)), ?_, rfl, ?_⟩
    · have := argminAbs_lt_length (derivList coeffs (minQ focus) (maxQ focus))
        (by
          intro hnil
          have := derivList_length coeffs (minQ focus) (maxQ focus)
          rw [hnil] at this
          simp at this)
      rwa [derivList_length] at this
    · intro j hj
      exact argminAbs_le _ j (by rwa [derivList_length])

/-- C1 (witness): the solver theorem applied to the zero polynomial and the
focus list `[0, 1999]`. -/
theorem c1_witness :
    (minQ [0, 1999] ≠ maxQ [0, 1999]) ∧
    ((linspace (minQ [0, 1999]) (maxQ [0, 1999]) 2000).length = 2000 ∧
    (∀ i, i < 2000 → (linspace (minQ [0, 1999]) (maxQ [0, 1999]) 2000).getD i 0
        = minQ [0, 1999] + (maxQ [0, 1999] - minQ [0, 1999]) * i / 1999) ∧
    (derivList [] (minQ [0, 1999]) (maxQ [0, 1999])).length = 1999 ∧
    (∀ i, i < 1999 →
      (derivList [] (minQ [0, 1999]) (maxQ [0, 1999])).getD i 0
        = polyEval []
            ((linspace (minQ [0, 1999]) (maxQ [0, 1999]) 2000).getD (i + 1) 0)
          - polyEval []
              ((linspace (minQ [0, 1999]) (maxQ [0, 1999]) 2000).getD i 0)
            / ((linspace (minQ [0, 1999]) (maxQ [0, 1999]) 2000).getD (i + 1) 0
                - (linspace (minQ [0, 1999]) (maxQ [0, 1999]) 2000).getD i 0)) ∧
    (∃ k, k < 1999 ∧ solveBestFocus [] [0, 1999]
        = (linspace (minQ [0, 1999]) (maxQ [0, 1999]) 2000).getD k 0 ∧
      ∀ j, j < 1999 →
        |(derivList [] (minQ [0, 1999]) (maxQ [0, 1999])).getD k 0|
          ≤ |(derivList [] (minQ [0, 1999]) (maxQ [0, 1999])).getD j 0|)) := by
  have hne : minQ [0, 1999] ≠ maxQ [0, 1999] := by norm_num [minQ, maxQ]
  exact ⟨hne, c1_focus_curve_solver [] [0, 1999] hne⟩

/-- Membership in the `argrelmax` output, unfolded. -/
lemma mem_argrelmax5 (d : List ℚ) (i : ℕ) :
    i ∈ argrelmax5 d ↔ i < d.length ∧ isRelMax d i = true := by
  simp [argrelmax5, List.mem_filter, List.mem_range]

/-- A surviving position strictly dominates every other in-range position
at distance at most 5. -/
lemma isRelMax_lt (d : List ℚ) (i k : ℕ) (hmax : isRelMax d i = true)
    (hk : k < d.length) (hne : k ≠ i) (h1 : i ≤ k + 5) (h2 : k ≤ i + 5) :
    d.getD k 0 < d.getD i 0 := by
  rw [isRelMax, List.all_eq_true] at hmax
  rcases Nat.lt_or_ge k i with hlt | hge
  · have hs : i - k - 1 < 5 := by omega
    have hcond := hmax (i - k - 1) (List.mem_range.mpr hs)
    simp only [Bool.and_eq_true, decide_eq_true_eq] at hcond
    have hidx : i - (i - k - 1 + 1) = k := by omega
    have := hcond.2
    rwa [hidx] at this
  · have hgt : i < k := lt_of_le_of_ne hge (fun hh => hne hh.symm)
    have hs : k - i - 1 < 5 := by omega
    have hcond := hmax (k - i - 1) (List.mem_range.mpr hs)
    simp only [Bool.and_eq_true, decide_eq_true_eq] at hcond
    have hidx : clipHi d.length (i + (k - i - 1 + 1)) = k := by
      rw [clipHi]
      have : i + (k - i - 1 + 1) = k := by omega
      rw [this, Nat.min_eq_left (by omega)]
    have := hcond.1
    rwa [hidx] at this

/-- C7: every peak position returned by the Peak Detector strictly
dominates all other positions of the thresholded profile within a 5-sample
window on each side (clipped at the edges), and any two distinct returned
peak positions are separated by at least 5 samples. -/
theorem c7_peak_detector (profile : List ℚ) (i j : ℕ)
    (hi : i ∈ (get_peaks_from_profile profile).1)
    (hj : j ∈ (get_peaks_from_profile profile).1) :
    (∀ k, k < (thresholdProfile profile).length → k ≠ i →
        (i : ℤ) - 5 ≤ (k : ℤ) → (k : ℤ) ≤ (i : ℤ) + 5 →
        (thresholdProfile profile).getD k 0
          < (thresholdProfile profile).getD i 0) ∧
    (i ≠ j → 5 ≤ |(i : ℤ) - (j : ℤ)|) := by
  have hpk : (get_peaks_from_profile profile).1
      = argrelmax5 (thresholdProfile profile) := rfl
  rw [hpk, mem_argrelmax5] at hi hj
  constructor
  · intro k hk hne hw1 hw2
    exact isRelMax_lt _ i k hi.2 hk hne (by omega) (by omega)
  · intro hne
    by_contra hsep
    push_neg at hsep
    rw [abs_lt] at hsep
    have hij : (thresholdProfile profile).getD j 0
        < (thresholdProfile profile).getD i 0 :=
      isRelMax_lt _ i j hi.2 hj.1 (fun hh => hne hh.symm) (by omega) (by omega)
    have hji : (thresholdProfile profile).getD i 0
        < (thresholdProfile profile).getD j 0 :=
      isRelMax_lt _ j i hj.2 hi.1 hne (by omega) (by omega)
    exact absurd hij (not_lt_of_lt hji)

/-- C7 (witness): the peak-detector theorem applied to the profile
`[0, 5, 0, 0, 0, 0, 0, 0]`, whose single detected peak is position 1. -/
theorem c7_witness :
    (1 ∈ (get_peaks_from_profile [0, 5, 0, 0, 0, 0, 0, 0]).1) ∧
    ((∀ k, k < (thresholdProfile [0, 5, 0, 0, 0, 0, 0, 0]).length → k ≠ 1 →
        (1 : ℤ) - 5 ≤ (k : ℤ) → (k : ℤ) ≤ (1 : ℤ) + 5 →
        (thresholdProfile [0, 5, 0, 0, 0, 0, 0, 0]).getD k 0
          < (thresholdProfile [0, 5, 0, 0, 0, 0, 0, 0]).getD 1 0) ∧
    ((1 : ℕ) ≠ 1 → 5 ≤ |(1 : ℤ) - (1 : ℤ)|)) := by
  have hth : thresholdProfile [0, 5, 0, 0, 0, 0, 0, 0]
      = [0, 5, 0, 0, 0, 0, 0, 0] := by
    norm_num [thresholdProfile, minQ, maxQ]
  have hmem : 1 ∈ (get_peaks_from_profile [0, 5, 0, 0, 0, 0, 0, 0]).1 := by
    have hpk : (get_peaks_from_profile [0, 5, 0, 0, 0, 0, 0, 0]).1
        = argrelmax5 (thresholdProfile [0, 5, 0, 0, 0, 0, 0, 0]) := rfl
    rw [hpk, hth]
    decide
  exact ⟨hmem, c7_peak_detector [0, 5, 0, 0, 0, 0, 0, 0] 1 1 hmem hmem⟩

/-- A list sum is at least its length times a lower bound of its elements. -/
lemma le_listSum_of_forall_le (L : List ℚ) (c : ℚ) (h : ∀ x ∈ L, c ≤ x) :
    (L.length : ℚ) * c ≤ L.sum := by
  induction L with
  | nil => simp
  | cons a t ih =>
    have ha := h a (by simp)
    have ht := ih (fun x hx => h x (by simp [hx]))
    simp only [List.length_cons, List.sum_cons]
    push_cast
    linarith

/-- A sum of squared deviations is nonnegative. -/
lemma sum_sq_nonneg (L : List ℚ) (c : ℚ) :
    0 ≤ (L.map (fun x => (x - c) ^ 2)).sum := by
  apply List.sum_nonneg
  intro x hx
  obtain ⟨y, _, rfl⟩ := List.mem_map.mp hx
  positivity

/-- The population variance is nonnegative. -/
lemma varQ_nonneg (l : List ℚ) : 0 ≤ varQ l := by
  rw [varQ]
  exact div_nonneg (sum_sq_nonneg l (meanQ l)) (by positivity)

/-- Sorting is a permutation of the data. -/
lemma sortedQ_perm (l : List ℚ) : List.Perm (sortedQ l) l :=
  List.perm_insertionSort _ l

/-- Sorting preserves length. -/
lemma sortedQ_length (l : List ℚ) : (sortedQ l).length = l.length :=
  (sortedQ_perm l).length_eq

/-- The sorted data is sorted. -/
lemma sortedQ_sorted (l : List ℚ) : List.Sorted (· ≤ ·) (sortedQ l) :=
  List.sorted_insertionSort _ l

/-- Entries of the sorted data are monotone in the index. -/
lemma sortedQ_getD_mono (l : List ℚ) (a b : ℕ) (hab : a ≤ b)
    (hb : b < (sortedQ l).length) :
    (sortedQ l).getD a 0 ≤ (sortedQ l).getD b 0 := by
  have ha : a < (sortedQ l).length := lt_of_le_of_lt hab hb
  rw [List.getD_eq_getElem _ _ ha, List.getD_eq_getElem _ _ hb]
  rcases eq_or_lt_of_le hab with rfl | hlt
  · exact le_refl _
  · have := (sortedQ_sorted l).rel_get_of_lt
      (show (⟨a, ha⟩ : Fin (sortedQ l).length) < ⟨b, hb⟩ from hlt)
    simpa using this

/-- Every element of the first `k` sorted entries is at most entry `k-1`. -/
lemma mem_take_le (l : List ℚ) (k : ℕ) (hk1 : 1 ≤ k)
    (hks : k ≤ (sortedQ l).length) (y : ℚ) (hy : y ∈ (sortedQ l).take k) :
    y ≤ (sortedQ l).getD (k - 1) 0 := by
  obtain ⟨i, hi, hget⟩ := List.mem_iff_getElem.mp hy
  have hik : i < k := by
    have := hi
    rw [List.length_take] at this
    omega
  have his : i < (sortedQ l).length := by omega
  rw [List.getElem_take] at hget
  rw [← hget, ← List.getD_eq_getElem (sortedQ l) 0 his]
  exact sortedQ_getD_mono l i (k - 1) (by omega) (by omega)

/-- Every element of the sorted entries from position `k` on is at least
entry `k`. -/
lemma mem_drop_ge (l : List ℚ) (k : ℕ) (hks : k < (sortedQ l).length)
    (y : ℚ) (hy : y ∈ (sortedQ l).drop k) :
    (sortedQ l).getD k 0 ≤ y := by
  obtain ⟨i, hi, hget⟩ := List.mem_iff_getElem.mp hy
  have hki : k + i < (sortedQ l).length := by
    have := hi
    rw [List.length_drop] at this
    omega
  rw [List.getElem_drop] at hget
  rw [← hget, ← List.getD_eq_getElem (sortedQ l) 0 hki]
  exact sortedQ_getD_mono l k (k + i) (by omega) (by omega)

/-- At least one data point always lies within three standard deviations of
the median (squared form): for odd length the median itself is a data
point; for even length the closer of the two middle entries is within
`sqrt 2` standard deviations of the median, because at least half the data
sits on its far side of the mean. -/
lemma exists_within_three_sigma (l : List ℚ) (hl : l ≠ []) :
    ∃ x ∈ l, (x - medianQ l) ^ 2 ≤ 9 * varQ l := by
  have hperm := sortedQ_perm l
  have hlen : (sortedQ l).length = l.length := sortedQ_length l
  have hn : 0 < l.length := List.length_pos.mpr hl
  rcases Nat.even_or_odd l.length with heven | hodd
  · -- even length: one of the two middle entries survives
    have hmod : l.length % 2 = 0 := Nat.even_iff.mp heven
    have hk1 : 1 ≤ l.length / 2 := by omega
    have hks : l.length / 2 < (sortedQ l).length := by omega
    have hk1s : l.length / 2 - 1 < (sortedQ l).length := by omega
    have hmed : medianQ l
        = ((sortedQ l).getD (l.length / 2 - 1) 0
            + (sortedQ l).getD (l.length / 2) 0) / 2 := by
      simp only [medianQ]
      rw [if_neg (by omega)]
    have hab : (sortedQ l).getD (l.length / 2 - 1) 0
        ≤ (sortedQ l).getD (l.length / 2) 0 :=
      sortedQ_getD_mono l (l.length / 2 - 1) (l.length / 2) (by omega) hks
    have hsum : ((sortedQ l).map (fun x => (x - meanQ l) ^ 2)).sum
        = (l.map (fun x => (x - meanQ l) ^ 2)).sum :=
      (hperm.map (fun x => (x - meanQ l) ^ 2)).sum_eq
    have hsplit : ((sortedQ l).map (fun x => (x - meanQ l) ^ 2)).sum
        = (((sortedQ l).take (l.length / 2)).map
            (fun x => (x - meanQ l) ^ 2)).sum
          + (((sortedQ l).drop (l.length / 2)).map
              (fun x => (x - meanQ l) ^ 2)).sum := by
      conv_lhs => rw [← List.take_append_drop (l.length / 2) (sortedQ l)]
      rw [List.map_append, List.sum_append]
    have htakelen : ((sortedQ l).take (l.length / 2)).length = l.length / 2 := by
      rw [List.length_take]
      omega
    have hdroplen : ((sortedQ l).drop (l.length / 2)).length = l.length / 2 := by
      rw [List.length_drop]
      omega
    have hnq : (0 : ℚ) < (l.length : ℚ) := by exact_mod_cast hn
    have hnk : (l.length : ℚ) = 2 * ((l.length / 2 : ℕ) : ℚ) := by
      exact_mod_cast (by omega : l.length = 2 * (l.length / 2))
    have hkq : (0 : ℚ) ≤ ((l.length / 2 : ℕ) : ℚ) := by positivity
    rcases le_or_lt (meanQ l) (medianQ l) with hmu | hmu
    · -- mean at or below the median: the upper middle entry survives
      refine ⟨(sortedQ l).getD (l.length / 2) 0, ?_, ?_⟩
      · apply hperm.subset
        rw [List.getD_eq_getElem _ _ hks]
        exact List.getElem_mem hks
      · have hc : 0 ≤ (sortedQ l).getD (l.length / 2) 0 - medianQ l := by
          rw [hmed]
          linarith
        have hlb : ∀ z ∈ ((sortedQ l).drop (l.length / 2)).map
            (fun x => (x - meanQ l) ^ 2),
            ((sortedQ l).getD (l.length / 2) 0 - medianQ l) ^ 2 ≤ z := by
          intro z hz
          obtain ⟨y, hy, rfl⟩ := List.mem_map.mp hz
          have hby : (sortedQ l).getD (l.length / 2) 0 ≤ y :=
            mem_drop_ge l (l.length / 2) hks y hy
          have hyy : (sortedQ l).getD (l.length / 2) 0 - medianQ l
              ≤ y - meanQ l := by linarith
          nlinarith [hc, hyy]
        have hsum2 := le_listSum_of_forall_le _ _ hlb
        rw [List.length_map, hdroplen] at hsum2
        have hsum1 : 0 ≤ (((sortedQ l).take (l.length / 2)).map
            (fun x => (x - meanQ l) ^ 2)).sum :=
          sum_sq_nonneg _ (meanQ l)
        rw [varQ, ← mul_div_assoc, le_div_iff₀ hnq, hnk]
        have hprod : 0 ≤ ((l.length / 2 : ℕ) : ℚ)
            * ((sortedQ l).getD (l.length / 2) 0 - medianQ l) ^ 2 :=
          mul_nonneg hkq (sq_nonneg _)
        nlinarith [hsum, hsplit, hsum1, hsum2, hprod]
    · -- mean above the median: the lower middle entry survives
      refine ⟨(sortedQ l).getD (l.length / 2 - 1) 0, ?_, ?_⟩
      · apply hperm.subset
        rw [List.getD_eq_getElem _ _ hk1s]
        exact List.getElem_mem hk1s
      · have hc : 0 ≤ medianQ l - (sortedQ l).getD (l.length / 2 - 1) 0 := by
          rw [hmed]
          linarith
        have hlb : ∀ z ∈ ((sortedQ l).take (l.length / 2)).map
            (fun x => (x - meanQ l) ^ 2),
            ((sortedQ l).getD (l.length / 2 - 1) 0 - medianQ l) ^ 2 ≤ z := by
          intro z hz
          obtain ⟨y, hy, rfl⟩ := List.mem_map.mp hz
          have hya : y ≤ (sortedQ l).getD (l.length / 2 - 1) 0 :=
            mem_take_le l (l.length / 2) hk1 (by omega) y hy
          have hyy : medianQ l - (sortedQ l).getD (l.length / 2 - 1) 0
              ≤ meanQ l - y := by linarith
          nlinarith [hc, hyy]
        have hsum2 := le_listSum_of_forall_le _ _ hlb
        rw [List.length_map, htakelen] at hsum2
        have hsum1 : 0 ≤ (((sortedQ l).drop (l.length / 2)).map
            (fun x => (x - meanQ l) ^ 2)).sum :=
          sum_sq_nonneg _ (meanQ l)
        rw [varQ, ← mul_div_assoc, le_div_iff₀ hnq, hnk]
        have hprod : 0 ≤ ((l.length / 2 : ℕ) : ℚ)
            * ((sortedQ l).getD (l.length / 2 - 1) 0 - medianQ l) ^ 2 :=
          mul_nonneg hkq (sq_nonneg _)
        nlinarith [hsum, hsplit, hsum1, hsum2, hprod]
  · -- odd length: the median is itself a data point
    have hmod : l.length % 2 = 1 := Nat.odd_iff.mp hodd
    have hidx : l.length / 2 < (sortedQ l).length := by omega
    have hmed : medianQ l = (sortedQ l).getD (l.length / 2) 0 := by
      simp only [medianQ]
      rw [if_pos hmod]
    refine ⟨(sortedQ l).getD (l.length / 2) 0, ?_, ?_⟩
    · apply hperm.subset
      rw [List.getD_eq_getElem _ _ hidx]
      exact List.getElem_mem hidx
    · rw [hmed]
      have := varQ_nonneg l
      nlinarith [this]

/-- The single-iteration 3-sigma clip never discards every value. -/
lemma sigmaClip3_ne_nil (l : List ℚ) (hl : l ≠ []) : sigmaClip3 l ≠ [] := by
  obtain ⟨x, hx, hpred⟩ := exists_within_three_sigma l hl
  have hmem : x ∈ sigmaClip3 l := by
    rw [sigmaClip3, List.mem_filter]
    exact ⟨hx, by simpa using hpred⟩
  exact List.ne_nil_of_mem hmem

/-- C4: `get_fwhm` aggregates the valid per-peak FWHM values as follows --
exactly one valid value is returned directly; more than one valid value is
aggregated by a single-iteration 3-sigma clip followed by the arithmetic
mean of the survivors (the clip can never discard everything, so the mean
branch is always taken). -/
theorem c4_fwhm_aggregation (peaks : List ℕ) (peakFit : ℕ → Option ℚ) :
    (((List.range peaks.length).filterMap peakFit).length = 1 →
      get_fwhm peaks peakFit
        = some (((List.range peaks.length).filterMap peakFit).headD 0)) ∧
    (1 < ((List.range peaks.length).filterMap peakFit).length →
      get_fwhm peaks peakFit
        = some (meanQ (sigmaClip3
            ((List.range peaks.length).filterMap peakFit)))) := by
  constructor
  · intro h1
    rw [get_fwhm, if_pos h1]
  · intro h2
    have hne : (List.range peaks.length).filterMap peakFit ≠ [] := by
      intro hnil
      rw [hnil] at h2
      simp at h2
    have hcl := sigmaClip3_ne_nil _ hne
    rw [get_fwhm, if_neg (by omega), if_pos (List.length_pos.mpr hcl)]

/-- C4 (witness): the aggregation theorem applied to two peaks whose fits
return the values `4` and `5`. -/
theorem c4_witness :
    (1 < ((List.range ([0, 1] : List ℕ).length).filterMap
        (fun (i : ℕ) => some ((i : ℚ) + 4))).length) ∧
    get_fwhm [0, 1] (fun (i : ℕ) => some ((i : ℚ) + 4))
      = some (meanQ (sigmaClip3 ((List.range ([0, 1] : List ℕ).length).filterMap
          (fun (i : ℕ) => some ((i : ℚ) + 4))))) := by
  have hlen : 1 < ((List.range ([0, 1] : List ℕ).length).filterMap
      (fun (i : ℕ) => some ((i : ℚ) + 4))).length := by
    decide
  exact ⟨hlen,
    (c4_fwhm_aggregation [0, 1] (fun (i : ℕ) => some ((i : ℚ) + 4))).2 hlen⟩

/-- Python `int()` agrees with the floor on nonnegative input. -/
lemma pyTrunc_of_nonneg (q : ℚ) (hq : 0 ≤ q) : pyTrunc q = Int.floor q := by
  rw [pyTrunc, if_neg (not_lt.mpr hq)]

/-- For an image of at least 100 rows, the half-height floor is at least 50
and at most `R - 50`. -/
lemma floor_half_bounds (R : ℕ) (hR : 100 ≤ R) :
    50 ≤ Int.floor ((R : ℚ) / 2) ∧ Int.floor ((R : ℚ) / 2) + 50 ≤ (R : ℤ) := by
  have h100 : (100 : ℚ) ≤ (R : ℚ) := by exact_mod_cast hR
  constructor
  · rw [Int.le_floor]
    push_cast
    linarith
  · have hfl := Int.floor_le ((R : ℚ) / 2)
    have key : ((Int.floor ((R : ℚ) / 2) + 50 : ℤ) : ℚ) ≤ ((R : ℤ) : ℚ) := by
      push_cast
      linarith
    exact_mod_cast key

/-- For an image of at least 100 rows, the slice bounds of line 135-136
are `floor(R/2) - 50` and `floor(R/2) + 50`. -/
lemma pyTrunc_shift (R : ℕ) (hR : 100 ≤ R) :
    pyTrunc ((R : ℚ) / 2 - 50) = Int.floor ((R : ℚ) / 2) - 50 ∧
    pyTrunc ((R : ℚ) / 2 + 50) = Int.floor ((R : ℚ) / 2) + 50 := by
  have h100 : (100 : ℚ) ≤ (R : ℚ) := by exact_mod_cast hR
  constructor
  · rw [pyTrunc_of_nonneg _ (by linarith)]
    rw [show ((R : ℚ) / 2 - 50) = ((R : ℚ) / 2 - ((50 : ℤ) : ℚ)) by norm_num]
    exact Int.floor_sub_int _ _
  · rw [pyTrunc_of_nonneg _ (by linarith)]
    rw [show ((R : ℚ) / 2 + 50) = ((R : ℚ) / 2 + ((50 : ℤ) : ℚ)) by norm_num]
    exact Int.floor_add_int _ _

/-- For an image of at least 100 rows, the selected band is the 100 row
indices starting at `floor(R/2) - 50`. -/
lemma bandRows_of_ge (R : ℕ) (hR : 100 ≤ R) :
    bandRows R = (List.range 100).map
      (fun t => (Int.floor ((R : ℚ) / 2) - 50).toNat + t) := by
  obtain ⟨hlo, hhi⟩ := floor_half_bounds R hR
  obtain ⟨hts, hta⟩ := pyTrunc_shift R hR
  rw [bandRows, hts, hta, pySliceIdx]
  rw [if_neg (by omega), if_neg (by omega)]
  rw [min_eq_left (by omega : Int.floor ((R : ℚ) / 2) - 50 ≤ (R : ℤ)),
    min_eq_left (by omega : Int.floor ((R : ℚ) / 2) + 50 ≤ (R : ℤ))]
  have h100 : (Int.floor ((R : ℚ) / 2) + 50
      - (Int.floor ((R : ℚ) / 2) - 50)).toNat = 100 := by omega
  rw [h100]

/-- C9 (amended): for every input image with at least 100 rows, the raw
profile of lines 133-138 is the per-column median of the 100-row band
starting at row `int(R/2) - 50`, i.e. centred on the vertical midpoint --
the spec-shaped definition `specCenteredProfile` and the code's slice
coincide. -/
theorem c9_raw_profile (data : List (List ℚ)) (hR : 100 ≤ data.length) :
    rawProfile data = specCenteredProfile data := by
  obtain ⟨hlo, hhi⟩ := floor_half_bounds data.length hR
  rw [rawProfile, specCenteredProfile]
  rw [List.map_inj_left]
  intro j _
  rw [List.map_map, List.map_map, bandRows_of_ge data.length hR, List.map_map]
  congr 1
  rw [pyTrunc_of_nonneg ((data.length : ℚ) / 2) (by positivity)]
  rw [List.map_inj_left]
  intro t ht
  rw [List.mem_range] at ht
  simp only [Function.comp_apply]
  rw [if_pos ⟨by omega, by omega⟩]
  have hidx : (Int.floor ((data.length : ℚ) / 2) - 50 + (t : ℤ)).toNat
      = (Int.floor ((data.length : ℚ) / 2) - 50).toNat + t := by omega
  rw [hidx]

/-- C9 (counterexample): on a 98-row, 1-column image whose last row is 42
and all other rows 0, the slice `[int(98/2 - 50):int(98/2 + 50)]` is
`[-1:99]`, which Python wraps to the single row 97 -- the raw profile is
`[42]`, not the per-column median of any 100-row band centred on the
midpoint (under the spec reading, with out-of-range rows as zeros, that
median is `[0]`).  The claim as stated over every input image is false. -/
theorem c9_counterexample :
    rawProfile (List.replicate 97 ([0] : List ℚ) ++ [[42]]) = [42] ∧
    specCenteredProfile (List.replicate 97 ([0] : List ℚ) ++ [[42]]) = [0] ∧
    rawProfile (List.replicate 97 ([0] : List ℚ) ++ [[42]])
      ≠ specCenteredProfile (List.replicate 97 ([0] : List ℚ) ++ [[42]]) := by
  have hlen : (List.replicate 97 ([0] : List ℚ) ++ [[42]]).length = 98 := by
    simp
  have h1 : pyTrunc (((98 : ℕ) : ℚ) / 2 - 50) = -1 := by
    rw [show (((98 : ℕ) : ℚ) / 2 - 50) = (-1 : ℚ) by norm_num]
    rw [pyTrunc, if_pos (by norm_num)]
    norm_num
  have h2 : pyTrunc (((98 : ℕ) : ℚ) / 2 + 50) = 99 := by
    rw [show (((98 : ℕ) : ℚ) / 2 + 50) = (((99 : ℤ) : ℚ)) by norm_num]
    rw [pyTrunc_of_nonneg _ (by norm_num), Int.floor_intCast]
  have h3 : pyTrunc (((98 : ℕ) : ℚ) / 2) = 49 := by
    rw [show (((98 : ℕ) : ℚ) / 2) = (((49 : ℤ) : ℚ)) by norm_num]
    rw [pyTrunc_of_nonneg _ (by norm_num), Int.floor_intCast]
  have hband : bandRows 98 = [97] := by
    rw [bandRows, h1, h2]
    decide
  have hraw : rawProfile (List.replicate 97 ([0] : List ℚ) ++ [[42]]) = [42] := by
    rw [rawProfile, hlen, hband]
    decide
  have hspec : specCenteredProfile
      (List.replicate 97 ([0] : List ℚ) ++ [[42]]) = [0] := by
    rw [specCenteredProfile, hlen, h3]
    have hL : (((List.range 100).map (fun (t : ℕ) => 49 - 50 + (t : ℤ))).map
        (fun r => if 0 ≤ r ∧ r < ((98 : ℕ) : ℤ) then
          (((List.replicate 97 ([0] : List ℚ) ++ [[42]]).getD r.toNat []).getD 0 0)
          else 0))
        = List.replicate 98 (0 : ℚ) ++ [42, 0] := by
      decide
    have hsort : sortedQ (List.replicate 98 (0 : ℚ) ++ [42, 0])
        = List.replicate 99 (0 : ℚ) ++ [42] := by
      decide
    have hg49 : (List.replicate 99 (0 : ℚ) ++ [42]).getD 49 0 = (0 : ℚ) := by
      decide
    have hg50 : (List.replicate 99 (0 : ℚ) ++ [42]).getD 50 0 = (0 : ℚ) := by
      decide
    have h100 : (List.replicate 98 (0 : ℚ) ++ [42, 0]).length = 100 := by
      decide
    have hmed : medianQ (List.replicate 98 (0 : ℚ) ++ [42, 0]) = 0 := by
      simp only [medianQ]
      rw [h100]
      rw [if_neg (by norm_num), hsort]
      rw [show (100 : ℕ) / 2 - 1 = 49 by norm_num,
        show (100 : ℕ) / 2 = 50 by norm_num]
      rw [hg49, hg50]
      norm_num
    have hhead : ((List.replicate 97 ([0] : List ℚ) ++ [[42]]).headD []).length
        = 1 := by
      decide
    have hr1 : List.range 1 = [0] := rfl
    rw [hhead, hr1, List.map_cons, List.map_nil]
    rw [hL, hmed]
  refine ⟨hraw, hspec, ?_⟩
  rw [hraw, hspec]
  norm_num

/-- C9 (witness): the amended theorem applied to a concrete 100-row,
single-column image. -/
theorem c9_witness :
    (100 ≤ (List.replicate 100 ([7] : List ℚ)).length) ∧
    rawProfile (List.replicate 100 ([7] : List ℚ))
      = specCenteredProfile (List.replicate 100 ([7] : List ℚ)) := by
  have h : 100 ≤ (List.replicate 100 ([7] : List ℚ)).length := by simp
  exact ⟨h, c9_raw_profile (List.replicate 100 ([7] : List ℚ)) h⟩

end GoodmanFocus
